import Mathlib

/-!
Verification development for the images-to-notes Obsidian plugin.

The definitions below are a shallow embedding of the plugin's TypeScript
source:

* `src/utils/fileUtils.ts` — path helpers and `isImageFile`;
* `src/services/processingQueue.ts` — the `ProcessingQueue` scheduler
  (serial revision, guarded by a single `isProcessing` flag);
* the `ProcessingQueue` revision with a `maxConcurrent` budget
  (`src/unnamed/part_002`), embedded in namespace `ProcessingQueueMC`;
* `src/main.ts` — `handleFileCreate` and the per-job pipeline
  `processImageFile` with its helper stages.

External collaborators (Obsidian vault API, HEIC conversion, image
compression, the AI transcription provider, the note materializer and the
settings persistence layer) are modelled as an explicit environment
(`Env`): each collaborator's outcome is an input to the run, and the
pipeline records which collaborators it invoked in an event trace.
-/

namespace ImagesToNotes

/-! ## Path utilities (src/utils/fileUtils.ts and obsidian normalizePath)

String splitting, joining and lower-casing are implemented structurally
over the character list so that every path computation reduces inside the
kernel. -/

/-- Split a character list at every occurrence of `c` (the accumulator
holds the current segment, reversed). -/
def splitOnCharAux (c : Char) : List Char → List Char → List (List Char)
  | [], acc => [acc.reverse]
  | x :: xs, acc =>
    if x = c then acc.reverse :: splitOnCharAux c xs []
    else splitOnCharAux c xs (x :: acc)

/-- Split a string at every occurrence of the character `c`
(the behavior of JS `split` for a one-character separator). -/
def splitOnChar (c : Char) (p : String) : List String :=
  (splitOnCharAux c p.data []).map String.mk

/-- Join segments with a separator (the behavior of JS `join`). -/
def joinWith (sep : String) : List String → String
  | [] => ""
  | [x] => x
  | x :: xs => x ++ sep ++ joinWith sep xs

/-- JS `toLowerCase` restricted to the characters that occur in paths. -/
def lowerStr (s : String) : String :=
  String.mk (s.data.map Char.toLower)

/-- Obsidian's `normalizePath`: collapse duplicate slashes and strip
leading/trailing slashes (collaborator function from the obsidian API). -/
def normalizePath (p : String) : String :=
  joinWith "/" ((splitOnChar '/' p).filter (fun s => s != ""))

/-- `getParentFolderPath` from `src/utils/fileUtils.ts`: the substring
before the last `/`, or `"/"` when the path has no separator. -/
def getParentFolderPath (filePath : String) : String :=
  let segs := splitOnChar '/' filePath
  if segs.length ≤ 1 then "/" else joinWith "/" segs.dropLast

/-- The file name of a path: the segment after the last `/`
(Obsidian `TFile.name`). -/
def fileName (p : String) : String :=
  (splitOnChar '/' p).getLastD p

/-- Obsidian `TFile.extension`: the part of the name after the last dot,
or `""` when the name has no dot. -/
def fileExt (p : String) : String :=
  let parts := splitOnChar '.' (fileName p)
  if parts.length ≤ 1 then "" else parts.getLastD ""

/-- Obsidian `TFile.basename`: the name without its extension. -/
def fileBasename (p : String) : String :=
  let parts := splitOnChar '.' (fileName p)
  if parts.length ≤ 1 then fileName p else joinWith "." parts.dropLast

/-- `file.extension.toLowerCase() === 'heic'` (src/main.ts, handleHeicConversion). -/
def isHeic (p : String) : Bool :=
  lowerStr (fileExt p) == "heic"

/-- The supported image extensions of `isImageFile` (src/utils/fileUtils.ts). -/
def supportedExtensions : List String := ["jpg", "jpeg", "png", "heic"]

/-- Obsidian `TAbstractFile`: either a `TFile` or a `TFolder`. -/
inductive AbstractFile where
  | file (path : String)
  | folder (path : String)
deriving DecidableEq, Repr

/-- `isImageFile` from `src/utils/fileUtils.ts`: a `TFile` whose lower-cased
extension is one of jpg, jpeg, png, heic. -/
def isImageFile : AbstractFile → Bool
  | .file p => supportedExtensions.contains (lowerStr (fileExt p))
  | .folder _ => false

/-! ## Job and status model (src/models/processingJob.ts) -/

/-- `ProcessingStatus` from `src/models/processingJob.ts`. -/
inductive Status where
  | pending
  | processing
  | done
  | error
deriving DecidableEq, Repr

/-- `ProcessingJob`: the initial file (identity anchor, here its path),
the status and the optional error reason. -/
structure ProcessingJob where
  initialFile : String
  status : Status
  error : Option String := none
deriving DecidableEq, Repr

namespace ProcessingQueue

/-!
The `ProcessingQueue` of `src/services/processingQueue.ts`: a job list and
a single `isProcessing` flag.  `processNext` runs up to the `await` of the
injected process callback; the state at that suspension point is what
`processNextSync` returns, which is the queue state observable while a
collaborator call is in flight.
-/

/-- The scheduler state of `src/services/processingQueue.ts`. -/
structure QState where
  queue : List ProcessingJob
  isProcessing : Bool
deriving DecidableEq, Repr

/-- Mark the first pending job of the list as processing
(`nextJob.status = 'processing'` on the job found by `queue.find`). -/
def markFirstPending : List ProcessingJob → List ProcessingJob
  | [] => []
  | j :: rest =>
    if j.status = .pending then { j with status := .processing } :: rest
    else j :: markFirstPending rest

/-- The synchronous prefix of `processNext` (up to the `await` of the process
callback): guard on `isProcessing`, find the first pending job, mark it
processing and set the flag. -/
def processNextSync (s : QState) : QState :=
  if s.isProcessing then s
  else
    match s.queue.find? (fun j => j.status == .pending) with
    | none => { s with isProcessing := false }
    | some _ => { queue := markFirstPending s.queue, isProcessing := true }

/-- `addToQueue` (src/services/processingQueue.ts lines 25–41): refuse the
file when a job with the same `initialFile.path` is already pending or
processing, otherwise append a pending job and trigger processing
(`triggerProcessing` returns at once when `isProcessing` is set). -/
def addToQueue (s : QState) (path : String) : QState :=
  if s.queue.any (fun j =>
      j.initialFile == path && (j.status == .pending || j.status == .processing)) then
    s
  else
    let s1 : QState := { s with queue := s.queue ++ [⟨path, .pending, none⟩] }
    if s1.isProcessing then s1 else processNextSync s1

/-- The empty scheduler state. -/
def initState : QState := ⟨[], false⟩

end ProcessingQueue

namespace ProcessingQueueMC

/-!
The `ProcessingQueue` revision with a concurrency budget
(`src/unnamed/part_002`): fields `maxConcurrent` (default 2) and
`activeJobs` in addition to `isProcessing` and the alias `processing` of
the job being run.
-/

/-- The scheduler state of the `maxConcurrent` queue revision. -/
structure QState where
  queue : List ProcessingJob
  isProcessing : Bool
  processing : Option String
  maxConcurrent : Nat
  activeJobs : Nat
deriving DecidableEq, Repr

/-- `setMaxConcurrent` (src/unnamed/part_002): clamp the budget to 1–5. -/
def setMaxConcurrent (s : QState) (max : Nat) : QState :=
  { s with maxConcurrent := Nat.max 1 (Nat.min 5 max) }

/-- `markAsDone` (src/unnamed/part_002 lines 126–131): set the status to
done unless it already is done. -/
def markAsDone (j : ProcessingJob) : ProcessingJob :=
  if j.status ≠ .done then { j with status := .done } else j

/-- `markAsError` (src/unnamed/part_002 lines 139–145): set the status to
error and record the reason unless the status already is error. -/
def markAsError (j : ProcessingJob) (errorMessage : String) : ProcessingJob :=
  if j.status ≠ .error then { j with status := .error, error := some errorMessage } else j

/-- The synchronous prefix of `processNext` (src/unnamed/part_002 lines
75–119, up to the `await`): guard on the `activeJobs` budget and the legacy
`isProcessing` flag, pick the first pending job, mark it processing,
record it in `processing` and bump `activeJobs`. -/
def processNextSync (s : QState) : QState :=
  if s.maxConcurrent ≤ s.activeJobs then s
  else if s.isProcessing then s
  else
    match s.queue.find? (fun j => j.status == .pending) with
    | none => { s with isProcessing := false, processing := none }
    | some j =>
      { s with
        queue := ProcessingQueue.markFirstPending s.queue,
        isProcessing := true,
        processing := some j.initialFile,
        activeJobs := s.activeJobs + 1 }

/-- `addToQueue` (src/unnamed/part_002 lines 39–58): refuse the file when a
job with the same path is in the queue or is the one being processed,
otherwise append a pending job and call `startProcessing` (which returns
at once when `isProcessing` is set). -/
def addToQueue (s : QState) (path : String) : QState :=
  if s.queue.any (fun j => j.initialFile == path) || s.processing == some path then s
  else
    let s1 : QState := { s with queue := s.queue ++ [⟨path, .pending, none⟩] }
    if s1.isProcessing then s1 else processNextSync s1

/-- The initial scheduler state with a given concurrency budget
(the source default is 2). -/
def initState (n : Nat) : QState := ⟨[], false, none, n, 0⟩

/-- The number of jobs observed in `processing` status. -/
def countProcessing (q : List ProcessingJob) : Nat :=
  (q.filter (fun j => j.status == .processing)).length

end ProcessingQueueMC

/-! ## Settings (src/models/settings.ts, destination-relevant fields) -/

/-- The fields of `PluginSettings` that the embedded pipeline reads. -/
structure PluginSettings where
  imageDestinationOption : String
  specificImageFolderPath : String
  imageFolderName : String
  noteDestinationOption : String
  specificNoteFolderPath : String
  processedImagePaths : List String
  transcribeOnlySpecificFolder : Bool
  specificFolderForTranscription : String
deriving DecidableEq, Repr

/-- `DEFAULT_SETTINGS` restricted to the embedded fields. -/
def DEFAULT_SETTINGS : PluginSettings :=
  { imageDestinationOption := "subfolder"
    specificImageFolderPath := ""
    imageFolderName := "Images"
    noteDestinationOption := "alongside"
    specificNoteFolderPath := ""
    processedImagePaths := []
    transcribeOnlySpecificFolder := false
    specificFolderForTranscription := "" }

/-- `this.settings.imageFolderName || DEFAULT_SETTINGS.imageFolderName`
(the JS falsy-or on the folder-name string). -/
def effectiveImageFolderName (s : PluginSettings) : String :=
  if s.imageFolderName = "" then DEFAULT_SETTINGS.imageFolderName else s.imageFolderName

/-! ## Vault model (obsidian storage collaborator) -/

/-- The vault: the sets of file paths and folder paths. -/
structure Vault where
  files : List String
  folders : List String
deriving DecidableEq, Repr

/-- The kind of entry returned by `getAbstractFileByPath`. -/
inductive VEntry where
  | tfile
  | tfolder
deriving DecidableEq, Repr

/-- `vault.getAbstractFileByPath`. -/
def getAbstractFileByPath (v : Vault) (p : String) : Option VEntry :=
  if v.files.contains p then some .tfile
  else if v.folders.contains p then some .tfolder
  else none

/-- `vault.adapter.exists`. -/
def adapterExists (v : Vault) (p : String) : Bool :=
  v.files.contains p || v.folders.contains p

/-- `vault.createBinary` / `vault.create`: register a file path
(overwriting an already-present file keeps the path present). -/
def addFile (v : Vault) (p : String) : Vault :=
  if v.files.contains p then v else { v with files := v.files ++ [p] }

/-- `fileManager.renameFile`: the file leaves its old path and appears at
the new one. -/
def renameFile (v : Vault) (oldPath newPath : String) : Vault :=
  { v with files := (v.files.filter (fun q => q != oldPath)) ++ [newPath] }

/-! ## Collaborator environment and run observables -/

/-- Outcome of the `compressImage` collaborator call as seen by
`handleImageCompression` (src/main.ts lines 489–501): a file result, a
`null` result, or a thrown error. -/
inductive CompressOutcome where
  | ok
  | retNull
  | throwsErr
deriving DecidableEq, Repr

/-- The behavior of the external collaborators for one job run. -/
structure Env where
  /-- `convertHeicToJpg` returns `null` (conversion failure). -/
  convertFails : Bool
  /-- outcome of the `compressImage` call. -/
  compress : CompressOutcome
  /-- `vault.createFolder` throws. -/
  createFolderFails : Bool
  /-- `fileManager.renameFile` throws. -/
  renameFails : Bool
  /-- `aiService.transcribeImage`: the transcription text, or `null`. -/
  transcribe : Option String
  /-- `noteCreator.createNote`: the created note path, or `null`. -/
  createNoteResult : Option String
  /-- `saveData` (settings persistence) throws. -/
  saveFails : Bool
  /-- message of a thrown I/O error. -/
  ioErrorMsg : String
deriving DecidableEq, Repr

/-- Collaborator-call events recorded by a pipeline run, in the order the
code performs them. -/
inductive Ev where
  | ensureImg
  | ensureNote
  | convertCall
  | compressCall
  | moveDone
  | histFound
  | histMiss
  | transcribeCall
  | createNoteCall
  | noteOk
  | appendEv
  | persistOk
deriving DecidableEq, Repr

/-- User-notification tags emitted by a run (notificationService calls). -/
inductive NotTag where
  | infoProcessing
  | errFolderCreate
  | errCompressUnexpected
  | errConvertFailed
  | errDuplicateExists
  | errMoveFailed
  | verbConverted
  | verbStartTranscribe
  | verbReceived
  | errAIProcessing
  | errUnexpectedProcessing
  | errSaveProcessedState
  | verbProcessed
deriving DecidableEq, Repr

/-- The observable outcome of one `processImageFile` run. -/
structure RunResult where
  status : Status
  error : Option String := none
  vault : Vault
  history : List String
  persisted : List String
  trace : List Ev
  transcribeCalls : Nat
  createNoteCalls : Nat
  finalPath : Option String
  notices : List NotTag
deriving DecidableEq, Repr

/-! ## Pipeline stages (src/main.ts) -/

/-- The destination pair computed by `determineDestinationPaths`. -/
structure Dests where
  imageDestination : String
  noteDestination : String
deriving DecidableEq, Repr

/-- `determineDestinationPaths` (src/main.ts lines 553–574). -/
def determineDestinationPaths (s : PluginSettings) (initialPath : String) : Dests :=
  let currentParentPath := getParentFolderPath initialPath
  let imageDestination :=
    if s.imageDestinationOption == "specificFolder" && s.specificImageFolderPath != "" then
      normalizePath s.specificImageFolderPath
    else
      normalizePath (currentParentPath ++ "/" ++ effectiveImageFolderName s)
  let noteDestination :=
    if s.noteDestinationOption == "specificFolder" && s.specificNoteFolderPath != "" then
      normalizePath s.specificNoteFolderPath
    else currentParentPath
  ⟨imageDestination, noteDestination⟩

/-- `ensureFolderExists` (src/main.ts lines 576–590): no-op for trivial
paths or when the folder already exists; create the folder otherwise; an
error from `createFolder` is re-thrown to the caller. -/
def ensureFolderExists (env : Env) (v : Vault) (folderPath : String) : Except String Vault :=
  if folderPath == "" || folderPath == "." || folderPath == "/" then .ok v
  else if adapterExists v folderPath then .ok v
  else if env.createFolderFails then .error env.ioErrorMsg
  else .ok { v with folders := v.folders ++ [folderPath] }

/-- `handleImageCompression` (src/main.ts lines 489–501): the compression
result is only inspected for logging; a thrown error is caught and
reported, and the pipeline continues either way. -/
def handleImageCompression (c : CompressOutcome) : List NotTag :=
  match c with
  | .throwsErr => [NotTag.errCompressUnexpected]
  | _ => []

/-- Result of the move stage. -/
structure MoveRes where
  finalPath : Option String
  vault : Vault
  evs : List Ev
  notices : List NotTag
deriving DecidableEq, Repr

/-- `handleFileMove` (src/main.ts lines 510–540): no move when the computed
destination equals the current path; terminal failure when a distinct
`TFile` occupies the destination or when `renameFile` throws (a rename onto
a folder path also throws); otherwise rename and report the new path. -/
def handleFileMove (env : Env) (v : Vault) (fileToMove targetFolder : String) : MoveRes :=
  let newImagePath := normalizePath (targetFolder ++ "/" ++ fileName fileToMove)
  if newImagePath == fileToMove then ⟨some fileToMove, v, [], []⟩
  else
    match getAbstractFileByPath v newImagePath with
    | some .tfile => ⟨none, v, [], [NotTag.errDuplicateExists]⟩
    | _ =>
      if env.renameFails || v.folders.contains newImagePath then
        ⟨none, v, [], [NotTag.errMoveFailed]⟩
      else
        ⟨some newImagePath, renameFile v fileToMove newImagePath, [Ev.moveDone], []⟩

/-- `isAlreadyProcessed` (src/main.ts lines 547–551). -/
def isAlreadyProcessed (s : PluginSettings) (filePath : String) : Bool :=
  s.processedImagePaths.contains filePath

/-- Result of `markAsProcessed`: the in-memory history, the persisted
history, and the emitted events and notices. -/
structure MarkRes where
  history : List String
  persisted : List String
  evs : List Ev
  notices : List NotTag
deriving DecidableEq, Repr

/-- `markAsProcessed` (src/main.ts lines 633–648): append the path unless
already present, then `saveSettings`; a save failure is caught and only
reported, leaving the persisted view stale. -/
def markAsProcessed (env : Env) (history persisted : List String) (filePath : String) : MarkRes :=
  if history.contains filePath then ⟨history, persisted, [], []⟩
  else
    let h := history ++ [filePath]
    if env.saveFails then ⟨h, persisted, [Ev.appendEv], [NotTag.errSaveProcessedState]⟩
    else ⟨h, h, [Ev.appendEv, Ev.persistOk], []⟩

/-- The tail of `processImageFile` after the move stage (src/main.ts
lines 420–456): final-reference lookup, idempotency check, transcription,
note creation (`runTranscriptionAndCreateNote`), `markAsProcessed` and the
terminal mark.  `mv` is the outcome of `handleFileMove`; `tr`/`no` carry
the events and notices already emitted by the earlier stages. -/
def runFromMove (env : Env) (s : PluginSettings) (mv : MoveRes)
    (tr : List Ev) (no : List NotTag) : RunResult :=
  match mv.finalPath with
  | none =>
    { status := .error, error := some "File move/folder handling failed",
      vault := mv.vault, history := s.processedImagePaths, persisted := s.processedImagePaths,
      trace := tr ++ mv.evs, transcribeCalls := 0, createNoteCalls := 0,
      finalPath := none, notices := no ++ mv.notices }
  | some finalPath =>
    match getAbstractFileByPath mv.vault finalPath with
    | some .tfile =>
      if isAlreadyProcessed s finalPath then
        { status := .done, error := none,
          vault := mv.vault, history := s.processedImagePaths, persisted := s.processedImagePaths,
          trace := tr ++ mv.evs ++ [Ev.histFound], transcribeCalls := 0, createNoteCalls := 0,
          finalPath := some finalPath, notices := no ++ mv.notices }
      else
        match env.transcribe with
        | none =>
          { status := .error, error := some "Transcription or Note creation failed",
            vault := mv.vault, history := s.processedImagePaths, persisted := s.processedImagePaths,
            trace := tr ++ mv.evs ++ [Ev.histMiss, Ev.transcribeCall],
            transcribeCalls := 1, createNoteCalls := 0,
            finalPath := some finalPath,
            notices := no ++ mv.notices ++ [NotTag.verbStartTranscribe] }
        | some _ =>
          match env.createNoteResult with
          | none =>
            { status := .error, error := some "Transcription or Note creation failed",
              vault := mv.vault, history := s.processedImagePaths, persisted := s.processedImagePaths,
              trace := tr ++ mv.evs ++ [Ev.histMiss, Ev.transcribeCall, Ev.createNoteCall],
              transcribeCalls := 1, createNoteCalls := 1,
              finalPath := some finalPath,
              notices := no ++ mv.notices ++ [NotTag.verbStartTranscribe, NotTag.verbReceived] }
          | some notePath =>
            let mk := markAsProcessed env s.processedImagePaths s.processedImagePaths finalPath
            { status := .done, error := none,
              vault := addFile mv.vault notePath, history := mk.history, persisted := mk.persisted,
              trace := tr ++ mv.evs ++ [Ev.histMiss, Ev.transcribeCall, Ev.createNoteCall, Ev.noteOk] ++ mk.evs,
              transcribeCalls := 1, createNoteCalls := 1,
              finalPath := some finalPath,
              notices := no ++ mv.notices
                ++ [NotTag.verbStartTranscribe, NotTag.verbReceived] ++ mk.notices
                ++ [NotTag.verbProcessed] }
    | _ =>
      { status := .error, error := some "Internal error: Could not get final file reference",
        vault := mv.vault, history := s.processedImagePaths, persisted := s.processedImagePaths,
        trace := tr ++ mv.evs, transcribeCalls := 0, createNoteCalls := 0,
        finalPath := none, notices := no ++ mv.notices }

/-- The stages of `processImageFile` with the notices of the compression
stage passed in (`compressNotices`): destination resolution, folder
provisioning for the image and note folders, HEIC conversion
(`handleHeicConversion`, with `convertHeicToJpg` creating a sibling `.jpg`
per `utils/imageUtils.ts`), compression, then the tail stages of
`runFromMove`.  A folder-provisioning error propagates to the outer catch
(`Unexpected processing error`). -/
def processImageRun (env : Env) (s : PluginSettings) (v : Vault) (initialPath : String)
    (compressNotices : List NotTag) : RunResult :=
  let dests := determineDestinationPaths s initialPath
  let n0 : List NotTag := [NotTag.infoProcessing]
  match ensureFolderExists env v dests.imageDestination with
  | .error msg =>
    { status := .error, error := some ("Unexpected processing error: " ++ msg),
      vault := v, history := s.processedImagePaths, persisted := s.processedImagePaths,
      trace := [Ev.ensureImg], transcribeCalls := 0, createNoteCalls := 0,
      finalPath := none,
      notices := n0 ++ [NotTag.errFolderCreate, NotTag.errUnexpectedProcessing] }
  | .ok v1 =>
    match ensureFolderExists env v1 dests.noteDestination with
    | .error msg =>
      { status := .error, error := some ("Unexpected processing error: " ++ msg),
        vault := v1, history := s.processedImagePaths, persisted := s.processedImagePaths,
        trace := [Ev.ensureImg, Ev.ensureNote], transcribeCalls := 0, createNoteCalls := 0,
        finalPath := none,
        notices := n0 ++ [NotTag.errFolderCreate, NotTag.errUnexpectedProcessing] }
    | .ok v2 =>
      if isHeic initialPath then
        if env.convertFails then
          { status := .error, error := some "HEIC conversion failed",
            vault := v2, history := s.processedImagePaths, persisted := s.processedImagePaths,
            trace := [Ev.ensureImg, Ev.ensureNote, Ev.convertCall],
            transcribeCalls := 0, createNoteCalls := 0,
            finalPath := none, notices := n0 ++ [NotTag.errConvertFailed] }
        else
          let converted := normalizePath
            (getParentFolderPath initialPath ++ "/" ++ fileBasename initialPath ++ ".jpg")
          runFromMove env s
            (handleFileMove env (addFile v2 converted) converted dests.imageDestination)
            [Ev.ensureImg, Ev.ensureNote, Ev.convertCall, Ev.compressCall]
            (n0 ++ [NotTag.verbConverted] ++ compressNotices)
      else
        runFromMove env s
          (handleFileMove env v2 initialPath dests.imageDestination)
          [Ev.ensureImg, Ev.ensureNote, Ev.compressCall]
          (n0 ++ compressNotices)

/-- `processImageFile` (src/main.ts lines 392–463): the full per-job
pipeline; the compression stage contributes only its notices
(`handleImageCompression`), which is exactly the non-terminal treatment
the code gives a compression failure. -/
def processImageFile (env : Env) (s : PluginSettings) (v : Vault) (initialPath : String) :
    RunResult :=
  processImageRun env s v initialPath (handleImageCompression env.compress)

/-! ## handleFileCreate (src/main.ts lines 313–386) -/

/-- The plugin state read and written by `handleFileCreate`. -/
structure PluginState where
  settings : PluginSettings
  droppedInEditorPaths : List String
  processingPaths : List String
  queue : ProcessingQueue.QState
deriving DecidableEq, Repr

/-- normalize a folder path for the folder-specific check, mapping `"."`
to `"/"` as the handler does. -/
def normalizeFolderForCheck (p : String) : String :=
  let x := normalizePath p
  if x == "." then "/" else x

/-- The admission-lock tail of `handleFileCreate`: skip when the path is
already being added, otherwise lock the path, call `addToQueue`, and
release the lock.  The second component records that `addToQueue` ran. -/
def enqueuePath (st : PluginState) (p : String) : PluginState × Bool :=
  if st.processingPaths.contains p then (st, false)
  else ({ st with queue := ProcessingQueue.addToQueue st.queue p }, true)

/-- `handleFileCreate` (src/main.ts lines 313–386): skip editor-dropped
paths, non-image files and folders; apply the folder-specific
transcription filter; then admit through the admission lock. -/
def handleFileCreate (st : PluginState) (file : AbstractFile) : PluginState × Bool :=
  match file with
  | .folder _ => (st, false)
  | .file p =>
    if st.droppedInEditorPaths.contains p then
      ({ st with droppedInEditorPaths := st.droppedInEditorPaths.filter (fun q => q != p) }, false)
    else if ¬ isImageFile (.file p) then (st, false)
    else if st.settings.transcribeOnlySpecificFolder then
      if st.settings.specificFolderForTranscription = "" then (st, false)
      else
        let nsf := normalizeFolderForCheck st.settings.specificFolderForTranscription
        let npp := normalizeFolderForCheck (getParentFolderPath p)
        if npp ≠ nsf then (st, false)
        else enqueuePath st p
    else enqueuePath st p

/-! ## Stage orders and concrete fixtures -/

/-- The events of the stages `processImageFile` performs before the move. -/
def preOrder : List Ev :=
  [Ev.ensureImg, Ev.ensureNote, Ev.convertCall, Ev.compressCall]

/-- The events of the stages `processImageFile` performs after the move. -/
def postOrder : List Ev :=
  [Ev.histFound, Ev.histMiss, Ev.transcribeCall, Ev.createNoteCall, Ev.noteOk,
   Ev.appendEv, Ev.persistOk]

/-- The collaborator-call order actually performed by `processImageFile`:
folder provisioning first, then conversion, compression, move,
history lookup, transcription, note creation, history commit. -/
def codeOrder : List Ev :=
  [Ev.ensureImg, Ev.ensureNote, Ev.convertCall, Ev.compressCall, Ev.moveDone,
   Ev.histFound, Ev.histMiss, Ev.transcribeCall, Ev.createNoteCall, Ev.noteOk,
   Ev.appendEv, Ev.persistOk]

/-- The stage order asserted by the specification (§4.2): format
normalization and size reduction before destination resolution and folder
provisioning. -/
def claimedOrder : List Ev :=
  [Ev.convertCall, Ev.compressCall, Ev.ensureImg, Ev.ensureNote, Ev.moveDone,
   Ev.histFound, Ev.histMiss, Ev.transcribeCall, Ev.createNoteCall, Ev.noteOk,
   Ev.appendEv, Ev.persistOk]

/-- An all-success collaborator environment. -/
def envOk : Env :=
  { convertFails := false, compress := .ok, createFolderFails := false,
    renameFails := false, transcribe := some "text",
    createNoteResult := some "Notes/note.md", saveFails := false,
    ioErrorMsg := "io error" }

/-- All collaborators succeed except settings persistence. -/
def envSaveFail : Env := { envOk with saveFails := true }

/-- All collaborators succeed except the transcription provider. -/
def envTransFail : Env := { envOk with transcribe := none }

/-- A vault holding one jpg in `Notes`. -/
def vaultJpg : Vault := ⟨["Notes/a.jpg"], ["Notes"]⟩

/-- A vault holding one heic in `Notes`. -/
def vaultHeic : Vault := ⟨["Notes/a.heic"], ["Notes"]⟩

/-- A vault where a distinct file already occupies the computed
destination `Notes/Images/a.jpg`. -/
def vaultCollide : Vault := ⟨["Notes/a.jpg", "Notes/Images/a.jpg"], ["Notes", "Notes/Images"]⟩

/-- A vault whose image already sits inside the `Images` subfolder. -/
def vaultInImages : Vault := ⟨["Notes/Images/a.jpg"], ["Notes", "Notes/Images"]⟩

/-- Default settings whose processed history already holds the final path
`Notes/Images/a.jpg`. -/
def sProcessed : PluginSettings :=
  { DEFAULT_SETTINGS with processedImagePaths := ["Notes/Images/a.jpg"] }

/-- A queue state already holding a pending job for `a.jpg`. -/
def sDup : ProcessingQueue.QState := ⟨[⟨"a.jpg", .pending, none⟩], false⟩

/-- A plugin state with default settings and an empty queue. -/
def stEx : PluginState := ⟨DEFAULT_SETTINGS, [], [], ProcessingQueue.initState⟩

/-! ## Shared invariants and helper lemmas -/

theorem markFirstPending_map (q : List ProcessingJob) :
    (ProcessingQueue.markFirstPending q).map ProcessingJob.initialFile
      = q.map ProcessingJob.initialFile := by
  induction q with
  | nil => rfl
  | cons j rest ih =>
    simp only [ProcessingQueue.markFirstPending]
    split <;> simp [ih]

theorem markFirstPending_live (q : List ProcessingJob)
    (h : ∀ j ∈ q, j.status = .pending ∨ j.status = .processing) :
    ∀ j ∈ ProcessingQueue.markFirstPending q,
      j.status = .pending ∨ j.status = .processing := by
  induction q with
  | nil => simp [ProcessingQueue.markFirstPending]
  | cons j rest ih =>
    simp only [ProcessingQueue.markFirstPending]
    split
    · intro j' hj'
      rcases List.mem_cons.mp hj' with h' | h'
      · right; simp [h']
      · exact h j' (List.mem_cons_of_mem _ h')
    · intro j' hj'
      rcases List.mem_cons.mp hj' with h' | h'
      · exact h' ▸ h j (List.mem_cons_self _ _)
      · exact ih (fun a ha => h a (List.mem_cons_of_mem _ ha)) j' h'

theorem processNextSync_inv (s : ProcessingQueue.QState)
    (h1 : (s.queue.map ProcessingJob.initialFile).Nodup)
    (h2 : ∀ j ∈ s.queue, j.status = .pending ∨ j.status = .processing) :
    ((ProcessingQueue.processNextSync s).queue.map ProcessingJob.initialFile).Nodup
    ∧ ∀ j ∈ (ProcessingQueue.processNextSync s).queue,
        j.status = .pending ∨ j.status = .processing := by
  unfold ProcessingQueue.processNextSync
  split
  · exact ⟨h1, h2⟩
  · split
    · exact ⟨h1, h2⟩
    · exact ⟨(markFirstPending_map s.queue) ▸ h1, markFirstPending_live s.queue h2⟩

theorem addToQueue_inv (s : ProcessingQueue.QState) (p : String)
    (h1 : (s.queue.map ProcessingJob.initialFile).Nodup)
    (h2 : ∀ j ∈ s.queue, j.status = .pending ∨ j.status = .processing) :
    (((ProcessingQueue.addToQueue s p).queue.map ProcessingJob.initialFile).Nodup)
    ∧ ∀ j ∈ (ProcessingQueue.addToQueue s p).queue,
        j.status = .pending ∨ j.status = .processing := by
  unfold ProcessingQueue.addToQueue
  split
  · exact ⟨h1, h2⟩
  · rename_i hno
    have hnotin : p ∉ s.queue.map ProcessingJob.initialFile := by
      intro hmem
      obtain ⟨j, hj, hje⟩ := List.mem_map.mp hmem
      apply hno
      rw [List.any_eq_true]
      refine ⟨j, hj, ?_⟩
      have hlive := h2 j hj
      simp only [Bool.and_eq_true, beq_iff_eq, Bool.or_eq_true]
      exact ⟨hje, by rcases hlive with h | h <;> simp [h]⟩
    have hq1 : ((s.queue ++ [(⟨p, .pending, none⟩ : ProcessingJob)]).map
        ProcessingJob.initialFile).Nodup := by
      simp only [List.map_append, List.map_cons, List.map_nil]
      simp [List.nodup_append, h1, hnotin]
    have hq2 : ∀ j ∈ s.queue ++ [(⟨p, .pending, none⟩ : ProcessingJob)],
        j.status = .pending ∨ j.status = .processing := by
      intro j hj
      rcases List.mem_append.mp hj with hj | hj
      · exact h2 j hj
      · left; simp at hj; simp [hj]
    dsimp only
    split
    · exact ⟨hq1, hq2⟩
    · exact processNextSync_inv _ hq1 hq2

theorem foldl_addToQueue_inv (ps : List String) (s : ProcessingQueue.QState)
    (h1 : (s.queue.map ProcessingJob.initialFile).Nodup)
    (h2 : ∀ j ∈ s.queue, j.status = .pending ∨ j.status = .processing) :
    (((List.foldl ProcessingQueue.addToQueue s ps).queue.map ProcessingJob.initialFile).Nodup)
    ∧ ∀ j ∈ (List.foldl ProcessingQueue.addToQueue s ps).queue,
        j.status = .pending ∨ j.status = .processing := by
  induction ps generalizing s with
  | nil => exact ⟨h1, h2⟩
  | cons p rest ih =>
    simp only [List.foldl_cons]
    obtain ⟨g1, g2⟩ := addToQueue_inv s p h1 h2
    exact ih _ g1 g2

/-- The scheduler invariant of the `maxConcurrent` queue under enqueue
transitions: the number of processing jobs matches the `isProcessing`
flag, every job is live, and the processing job (if any) sits at the head
of the queue (FIFO start order). -/
def MCInv (s : ProcessingQueueMC.QState) : Prop :=
  ProcessingQueueMC.countProcessing s.queue = (if s.isProcessing then 1 else 0)
  ∧ (∀ j ∈ s.queue, j.status = .pending ∨ j.status = .processing)
  ∧ (∀ j ∈ s.queue, j.status = .processing → s.queue.head? = some j)

theorem countProcessing_all_pending (q : List ProcessingJob)
    (h : ∀ j ∈ q, j.status = .pending) :
    ProcessingQueueMC.countProcessing q = 0 := by
  unfold ProcessingQueueMC.countProcessing
  rw [List.length_eq_zero, List.filter_eq_nil_iff]
  intro j hj
  simp [h j hj]

theorem all_pending_of_count_zero (q : List ProcessingJob)
    (hl : ∀ j ∈ q, j.status = .pending ∨ j.status = .processing)
    (hc : ProcessingQueueMC.countProcessing q = 0) :
    ∀ j ∈ q, j.status = .pending := by
  intro j hj
  rcases hl j hj with h | h
  · exact h
  · exfalso
    have hmem : j ∈ q.filter (fun j => j.status == .processing) :=
      List.mem_filter.mpr ⟨hj, by simp [h]⟩
    unfold ProcessingQueueMC.countProcessing at hc
    rw [List.length_eq_zero] at hc
    simp [hc] at hmem

theorem processNextSyncMC_inv (s : ProcessingQueueMC.QState) (h : MCInv s) :
    MCInv (ProcessingQueueMC.processNextSync s) := by
  obtain ⟨hc, hl, hh⟩ := h
  unfold ProcessingQueueMC.processNextSync
  split
  · exact ⟨hc, hl, hh⟩
  · split
    · exact ⟨hc, hl, hh⟩
    · rename_i hip
      have hc0 : ProcessingQueueMC.countProcessing s.queue = 0 := by
        simpa [hip] using hc
      have hp := all_pending_of_count_zero s.queue hl hc0
      split
      · exact ⟨by simpa [hip] using hc, hl, hh⟩
      · rename_i j hfind
        cases hq : s.queue with
        | nil => rw [hq] at hfind; simp at hfind
        | cons j0 rest =>
          rw [hq] at hp
          have hj0 : j0.status = .pending := hp j0 (List.mem_cons_self _ _)
          have hrest : ∀ a ∈ rest, a.status = .pending :=
            fun a ha => hp a (List.mem_cons_of_mem _ ha)
          have hmark : ProcessingQueue.markFirstPending (j0 :: rest)
              = { j0 with status := .processing } :: rest := by
            simp [ProcessingQueue.markFirstPending, hj0]
          have hcr := countProcessing_all_pending rest hrest
          refine ⟨?_, ?_, ?_⟩
          · dsimp only
            rw [hmark]
            unfold ProcessingQueueMC.countProcessing at hcr ⊢
            simp [List.filter, hcr]
          · intro a ha
            dsimp only at ha
            rw [hmark] at ha
            rcases List.mem_cons.mp ha with h' | h'
            · right; simp [h']
            · left; exact hrest a h'
          · intro a ha hproc
            dsimp only at ha ⊢
            rw [hmark] at ha ⊢
            rcases List.mem_cons.mp ha with h' | h'
            · simp [h']
            · exact absurd hproc (by simp [hrest a h'])

theorem addToQueueMC_inv (s : ProcessingQueueMC.QState) (p : String) (h : MCInv s) :
    MCInv (ProcessingQueueMC.addToQueue s p) := by
  obtain ⟨hc, hl, hh⟩ := h
  unfold ProcessingQueueMC.addToQueue
  split
  · exact ⟨hc, hl, hh⟩
  · have hcount : ProcessingQueueMC.countProcessing
        (s.queue ++ [(⟨p, .pending, none⟩ : ProcessingJob)])
        = ProcessingQueueMC.countProcessing s.queue := by
      unfold ProcessingQueueMC.countProcessing
      simp [List.filter_append]
    have hlive : ∀ j ∈ s.queue ++ [(⟨p, .pending, none⟩ : ProcessingJob)],
        j.status = .pending ∨ j.status = .processing := by
      intro j hj
      rcases List.mem_append.mp hj with hj | hj
      · exact hl j hj
      · left; simp at hj; simp [hj]
    have hhead : ∀ j ∈ s.queue ++ [(⟨p, .pending, none⟩ : ProcessingJob)],
        j.status = .processing →
        (s.queue ++ [(⟨p, .pending, none⟩ : ProcessingJob)]).head? = some j := by
      intro j hj hproc
      rcases List.mem_append.mp hj with hj | hj
      · have hhd := hh j hj hproc
        cases hq : s.queue with
        | nil => rw [hq] at hj; simp at hj
        | cons a t =>
          rw [hq] at hhd
          simp only [List.head?_cons, Option.some.injEq] at hhd
          simp [List.cons_append, hhd]
      · simp at hj
        rw [hj] at hproc
        simp at hproc
    have hs1 : MCInv ⟨s.queue ++ [(⟨p, .pending, none⟩ : ProcessingJob)],
        s.isProcessing, s.processing, s.maxConcurrent, s.activeJobs⟩ :=
      ⟨by simpa [hcount] using hc, hlive, hhead⟩
    dsimp only
    split
    · exact hs1
    · exact processNextSyncMC_inv _ hs1

theorem foldl_addToQueueMC_inv (ps : List String) (s : ProcessingQueueMC.QState)
    (h : MCInv s) : MCInv (List.foldl ProcessingQueueMC.addToQueue s ps) := by
  induction ps generalizing s with
  | nil => exact h
  | cons p rest ih =>
    simp only [List.foldl_cons]
    exact ih _ (addToQueueMC_inv s p h)

/-! ## Claims -/

/-- Claim C1: a call to `addToQueue` while a job with the same
`initialFile.path` is already pending or processing is a no-op leaving the
whole scheduler state (queue length and contents) unchanged; moreover, in
every state reachable by enqueue operations from the empty queue the jobs
hold pairwise distinct paths and are all pending or processing, so at most
one job per distinct path is live at any time. -/
theorem enqueue_dedup_noop_and_unique :
    (∀ (s : ProcessingQueue.QState) (f : String),
      (∃ j ∈ s.queue, j.initialFile = f ∧ (j.status = .pending ∨ j.status = .processing)) →
      ProcessingQueue.addToQueue s f = s)
    ∧ ∀ ps : List String,
        (((List.foldl ProcessingQueue.addToQueue ProcessingQueue.initState ps).queue.map
          ProcessingJob.initialFile).Nodup)
        ∧ ∀ j ∈ (List.foldl ProcessingQueue.addToQueue ProcessingQueue.initState ps).queue,
            j.status = .pending ∨ j.status = .processing := by
  constructor
  · intro s f ⟨j, hj, hje, hlive⟩
    unfold ProcessingQueue.addToQueue
    rw [if_pos]
    rw [List.any_eq_true]
    refine ⟨j, hj, ?_⟩
    simp only [Bool.and_eq_true, beq_iff_eq, Bool.or_eq_true]
    exact ⟨hje, by rcases hlive with h | h <;> simp [h]⟩
  · intro ps
    exact foldl_addToQueue_inv ps ProcessingQueue.initState (by simp [ProcessingQueue.initState])
      (by simp [ProcessingQueue.initState])

/-- Witness for C1: the duplicate-enqueue no-op at a concrete state, and
the uniqueness invariant after a concrete enqueue sequence with a repeat. -/
theorem enqueue_dedup_noop_and_unique_witness :
    ProcessingQueue.addToQueue sDup "a.jpg" = sDup
    ∧ (((List.foldl ProcessingQueue.addToQueue ProcessingQueue.initState
         ["x.png", "x.png", "y.png"]).queue.map ProcessingJob.initialFile).Nodup) := by
  constructor
  · exact enqueue_dedup_noop_and_unique.1 sDup "a.jpg"
      ⟨⟨"a.jpg", .pending, none⟩, by simp [sDup], rfl, Or.inl rfl⟩
  · exact (enqueue_dedup_noop_and_unique.2 ["x.png", "x.png", "y.png"]).1

/-- Claim C5 (amended): `markAsDone` and `markAsError` are idempotent when
re-applied (a second `markAsError` also preserves the first reason), but a
job in one terminal state is overwritten by the opposite mark: `markAsDone`
turns an error job into done, and `markAsError` turns a done job into
error with the new reason. -/
theorem markTerminal_idempotent_but_overwrites (j : ProcessingJob) (m m' : String) :
    ProcessingQueueMC.markAsDone (ProcessingQueueMC.markAsDone j)
      = ProcessingQueueMC.markAsDone j
    ∧ ProcessingQueueMC.markAsError (ProcessingQueueMC.markAsError j m) m'
      = ProcessingQueueMC.markAsError j m
    ∧ (j.status = .error → (ProcessingQueueMC.markAsDone j).status = .done)
    ∧ (j.status = .done →
        (ProcessingQueueMC.markAsError j m).status = .error
        ∧ (ProcessingQueueMC.markAsError j m).error = some m) := by
  unfold ProcessingQueueMC.markAsDone ProcessingQueueMC.markAsError
  refine ⟨?_, ?_, ?_, ?_⟩ <;> split <;> simp_all

/-- Witness for C5 (amended), at jobs in each terminal state. -/
theorem markTerminal_idempotent_but_overwrites_witness :
    (ProcessingQueueMC.markAsDone (⟨"a.jpg", .error, some "boom"⟩ : ProcessingJob)).status
      = .done
    ∧ (ProcessingQueueMC.markAsError (⟨"a.jpg", .done, none⟩ : ProcessingJob) "late").status
      = .error := by
  refine ⟨?_, ?_⟩
  · exact (markTerminal_idempotent_but_overwrites ⟨"a.jpg", .error, some "boom"⟩ "m" "m").2.2.1 rfl
  · exact ((markTerminal_idempotent_but_overwrites ⟨"a.jpg", .done, none⟩ "late" "m").2.2.2 rfl).1

/-- Counterexample for C5 as stated: a job already in the terminal `error`
state is overwritten to `done` by a subsequent `markAsDone` call (the
`src/services/processingQueue.ts` revision even overwrites
unconditionally). -/
theorem markAsDone_overwrites_error_counterexample :
    (ProcessingQueueMC.markAsDone (⟨"a.jpg", .error, some "boom"⟩ : ProcessingJob)).status
      = .done
    ∧ (⟨"a.jpg", .error, some "boom"⟩ : ProcessingJob).status = .error := by
  decide

theorem handleFileMove_evs (env : Env) (v : Vault) (f t : String) :
    (handleFileMove env v f t).evs = [] ∨ (handleFileMove env v f t).evs = [Ev.moveDone] := by
  unfold handleFileMove
  dsimp only
  split
  · simp
  · split
    · simp
    · split <;> simp

theorem markAsProcessed_evs (env : Env) (h pr : List String) (fp : String) :
    (markAsProcessed env h pr fp).evs = []
    ∨ (markAsProcessed env h pr fp).evs = [Ev.appendEv]
    ∨ (markAsProcessed env h pr fp).evs = [Ev.appendEv, Ev.persistOk] := by
  unfold markAsProcessed
  split
  · simp
  · split <;> simp

theorem runFromMove_histFound (env : Env) (s : PluginSettings) (mv : MoveRes)
    (tr : List Ev) (no : List NotTag)
    (htr : Ev.histFound ∉ tr) (hmv : Ev.histFound ∉ mv.evs) :
    Ev.histFound ∈ (runFromMove env s mv tr no).trace →
    (runFromMove env s mv tr no).status = .done
    ∧ (runFromMove env s mv tr no).transcribeCalls = 0
    ∧ (runFromMove env s mv tr no).createNoteCalls = 0 := by
  obtain ⟨fp, mvv, mevs, mnot⟩ := mv
  unfold runFromMove
  dsimp only at hmv ⊢
  cases fp with
  | none => intro h; simp [htr, hmv] at h
  | some p =>
    dsimp only
    repeat' split
    all_goals intro h
    all_goals first
      | exact ⟨rfl, rfl, rfl⟩
      | (rcases markAsProcessed_evs env s.processedImagePaths s.processedImagePaths p
          with hm | hm | hm <;> simp [htr, hmv, hm] at h)

theorem not_mem_move_evs (env : Env) (v : Vault) (f t : String) (e : Ev)
    (hne : e ≠ Ev.moveDone) : e ∉ (handleFileMove env v f t).evs := by
  rcases handleFileMove_evs env v f t with he | he <;> simp [he, hne]

theorem move_evs_sublist (env : Env) (v : Vault) (f t : String) :
    List.Sublist (handleFileMove env v f t).evs [Ev.moveDone] := by
  rcases handleFileMove_evs env v f t with he | he <;> simp [he]

theorem runFromMove_trace_sublist (env : Env) (s : PluginSettings) (mv : MoveRes)
    (tr : List Ev) (no : List NotTag)
    (htr : List.Sublist tr preOrder) (hmv : List.Sublist mv.evs [Ev.moveDone]) :
    List.Sublist (runFromMove env s mv tr no).trace codeOrder := by
  rw [show codeOrder = preOrder ++ [Ev.moveDone] ++ postOrder from rfl]
  obtain ⟨fp, mvv, mevs, mnot⟩ := mv
  dsimp only at hmv
  unfold runFromMove
  dsimp only
  cases fp with
  | none =>
    simpa using List.Sublist.append (List.Sublist.append htr hmv)
      (List.nil_sublist postOrder)
  | some p =>
    dsimp only
    repeat' split
    all_goals first
      | (rcases markAsProcessed_evs env s.processedImagePaths s.processedImagePaths p
          with hm | hm | hm <;>
          · rw [hm, List.append_assoc (tr ++ mevs)]
            exact List.Sublist.append (List.Sublist.append htr hmv) (by decide))
      | simpa using List.Sublist.append (List.Sublist.append htr hmv)
          (List.nil_sublist postOrder)
      | exact List.Sublist.append (List.Sublist.append htr hmv) (by decide)

theorem runFromMove_terminal (env : Env) (s : PluginSettings) (mv : MoveRes)
    (tr : List Ev) (no : List NotTag) :
    (runFromMove env s mv tr no).status = .done
    ∨ (runFromMove env s mv tr no).status = .error := by
  obtain ⟨fp, mvv, mevs, mnot⟩ := mv
  unfold runFromMove
  dsimp only
  cases fp with
  | none => right; rfl
  | some p =>
    dsimp only
    repeat' split
    all_goals first | (left; rfl) | (right; rfl)

theorem runFromMove_error_no_append (env : Env) (s : PluginSettings) (mv : MoveRes)
    (tr : List Ev) (no : List NotTag)
    (htr : Ev.appendEv ∉ tr) (hmv : Ev.appendEv ∉ mv.evs) :
    (runFromMove env s mv tr no).status = .error →
    Ev.appendEv ∉ (runFromMove env s mv tr no).trace := by
  obtain ⟨fp, mvv, mevs, mnot⟩ := mv
  dsimp only at hmv
  unfold runFromMove
  dsimp only
  cases fp with
  | none => intro _; simp [htr, hmv]
  | some p =>
    dsimp only
    repeat' split
    all_goals simp [htr, hmv]

theorem markAsProcessed_mem (env : Env) (h pr : List String) (fp : String) :
    fp ∈ (markAsProcessed env h pr fp).history := by
  unfold markAsProcessed
  split
  · rename_i hc
    simpa using hc
  · split <;> simp

theorem markAsProcessed_append_mem (env : Env) (h pr : List String) (fp : String)
    (hc : h.contains fp = false) :
    Ev.appendEv ∈ (markAsProcessed env h pr fp).evs := by
  unfold markAsProcessed
  rw [if_neg (by simp_all)]
  split <;> simp

theorem runFromMove_append_imp_noteOk (env : Env) (s : PluginSettings) (mv : MoveRes)
    (tr : List Ev) (no : List NotTag)
    (htr : Ev.appendEv ∉ tr) (hmv : Ev.appendEv ∉ mv.evs) :
    Ev.appendEv ∈ (runFromMove env s mv tr no).trace →
    Ev.noteOk ∈ (runFromMove env s mv tr no).trace := by
  obtain ⟨fp, mvv, mevs, mnot⟩ := mv
  dsimp only at hmv
  unfold runFromMove
  dsimp only
  cases fp with
  | none => intro h; simp [htr, hmv] at h
  | some p =>
    dsimp only
    repeat' split
    all_goals simp [htr, hmv]

theorem runFromMove_done_commit (env : Env) (s : PluginSettings) (mv : MoveRes)
    (tr : List Ev) (no : List NotTag) :
    (runFromMove env s mv tr no).status = .done →
    (Ev.histFound ∈ (runFromMove env s mv tr no).trace
      ∨ Ev.appendEv ∈ (runFromMove env s mv tr no).trace)
    ∧ ∃ fp, (runFromMove env s mv tr no).finalPath = some fp
        ∧ fp ∈ (runFromMove env s mv tr no).history := by
  obtain ⟨fp, mvv, mevs, mnot⟩ := mv
  unfold runFromMove
  dsimp only
  cases fp with
  | none => intro h; simp at h
  | some p =>
    dsimp only
    split
    · split
      · rename_i hproc
        intro _
        exact ⟨Or.inl (by simp), p, rfl, by simpa [isAlreadyProcessed] using hproc⟩
      · rename_i hnproc
        split
        · intro hd; simp at hd
        · split
          · intro hd; simp at hd
          · intro _
            have hc : s.processedImagePaths.contains p = false := by
              simpa [isAlreadyProcessed] using hnproc
            refine ⟨Or.inr ?_, p, rfl,
              markAsProcessed_mem env s.processedImagePaths s.processedImagePaths p⟩
            exact List.mem_append.mpr (Or.inr
              (markAsProcessed_append_mem env s.processedImagePaths s.processedImagePaths p hc))
    · intro hd; simp at hd

theorem processImageFile_trace_sublist (env : Env) (s : PluginSettings)
    (v : Vault) (p : String) :
    List.Sublist (processImageFile env s v p).trace codeOrder := by
  unfold processImageFile processImageRun
  dsimp only
  split
  · exact (by decide : List.Sublist [Ev.ensureImg] codeOrder)
  · split
    · exact (by decide : List.Sublist [Ev.ensureImg, Ev.ensureNote] codeOrder)
    · split
      · split
        · exact (by decide :
            List.Sublist [Ev.ensureImg, Ev.ensureNote, Ev.convertCall] codeOrder)
        · exact runFromMove_trace_sublist _ _ _ _ _ (by decide) (move_evs_sublist _ _ _ _)
      · exact runFromMove_trace_sublist _ _ _ _ _ (by decide) (move_evs_sublist _ _ _ _)

theorem processImageFile_terminal (env : Env) (s : PluginSettings)
    (v : Vault) (p : String) :
    (processImageFile env s v p).status = .done
    ∨ (processImageFile env s v p).status = .error := by
  unfold processImageFile processImageRun
  dsimp only
  split
  · right; rfl
  · split
    · right; rfl
    · split
      · split
        · right; rfl
        · exact runFromMove_terminal _ _ _ _ _
      · exact runFromMove_terminal _ _ _ _ _

theorem processImageFile_error_no_append (env : Env) (s : PluginSettings)
    (v : Vault) (p : String) :
    (processImageFile env s v p).status = .error →
    Ev.appendEv ∉ (processImageFile env s v p).trace := by
  unfold processImageFile processImageRun
  dsimp only
  split
  · intro _; exact (by decide : Ev.appendEv ∉ [Ev.ensureImg])
  · split
    · intro _; exact (by decide : Ev.appendEv ∉ [Ev.ensureImg, Ev.ensureNote])
    · split
      · split
        · intro _
          exact (by decide : Ev.appendEv ∉ [Ev.ensureImg, Ev.ensureNote, Ev.convertCall])
        · exact runFromMove_error_no_append _ _ _ _ _ (by decide)
            (not_mem_move_evs _ _ _ _ _ (by decide))
      · exact runFromMove_error_no_append _ _ _ _ _ (by decide)
          (not_mem_move_evs _ _ _ _ _ (by decide))

theorem processImageFile_append_imp_noteOk (env : Env) (s : PluginSettings)
    (v : Vault) (p : String) :
    Ev.appendEv ∈ (processImageFile env s v p).trace →
    Ev.noteOk ∈ (processImageFile env s v p).trace := by
  unfold processImageFile processImageRun
  dsimp only
  split
  · intro h; simp at h
  · split
    · intro h; simp at h
    · split
      · split
        · intro h; simp at h
        · exact runFromMove_append_imp_noteOk _ _ _ _ _ (by decide)
            (not_mem_move_evs _ _ _ _ _ (by decide))
      · exact runFromMove_append_imp_noteOk _ _ _ _ _ (by decide)
          (not_mem_move_evs _ _ _ _ _ (by decide))

theorem processImageFile_done_commit (env : Env) (s : PluginSettings)
    (v : Vault) (p : String) :
    (processImageFile env s v p).status = .done →
    (Ev.histFound ∈ (processImageFile env s v p).trace
      ∨ Ev.appendEv ∈ (processImageFile env s v p).trace)
    ∧ ∃ fp, (processImageFile env s v p).finalPath = some fp
        ∧ fp ∈ (processImageFile env s v p).history := by
  unfold processImageFile processImageRun
  dsimp only
  split
  · intro h; simp at h
  · split
    · intro h; simp at h
    · split
      · split
        · intro h; simp at h
        · exact runFromMove_done_commit _ _ _ _ _
      · exact runFromMove_done_commit _ _ _ _ _

theorem runFromMove_strip_no (env : Env) (s : PluginSettings) (mv : MoveRes)
    (tr : List Ev) (no no' : List NotTag) :
    (runFromMove env s mv tr no).status = (runFromMove env s mv tr no').status
    ∧ (runFromMove env s mv tr no).error = (runFromMove env s mv tr no').error
    ∧ (runFromMove env s mv tr no).vault = (runFromMove env s mv tr no').vault
    ∧ (runFromMove env s mv tr no).history = (runFromMove env s mv tr no').history
    ∧ (runFromMove env s mv tr no).persisted = (runFromMove env s mv tr no').persisted
    ∧ (runFromMove env s mv tr no).trace = (runFromMove env s mv tr no').trace
    ∧ (runFromMove env s mv tr no).transcribeCalls
        = (runFromMove env s mv tr no').transcribeCalls
    ∧ (runFromMove env s mv tr no).createNoteCalls
        = (runFromMove env s mv tr no').createNoteCalls
    ∧ (runFromMove env s mv tr no).finalPath = (runFromMove env s mv tr no').finalPath := by
  obtain ⟨fp, mvv, mevs, mnot⟩ := mv
  unfold runFromMove
  dsimp only
  cases fp with
  | none => exact ⟨rfl, rfl, rfl, rfl, rfl, rfl, rfl, rfl, rfl⟩
  | some p =>
    dsimp only
    repeat' split
    all_goals exact ⟨rfl, rfl, rfl, rfl, rfl, rfl, rfl, rfl, rfl⟩

theorem processImageRun_strip (env : Env) (s : PluginSettings) (v : Vault)
    (p : String) (cn cn' : List NotTag) :
    (processImageRun env s v p cn).status = (processImageRun env s v p cn').status
    ∧ (processImageRun env s v p cn).error = (processImageRun env s v p cn').error
    ∧ (processImageRun env s v p cn).vault = (processImageRun env s v p cn').vault
    ∧ (processImageRun env s v p cn).history = (processImageRun env s v p cn').history
    ∧ (processImageRun env s v p cn).persisted = (processImageRun env s v p cn').persisted
    ∧ (processImageRun env s v p cn).trace = (processImageRun env s v p cn').trace
    ∧ (processImageRun env s v p cn).transcribeCalls
        = (processImageRun env s v p cn').transcribeCalls
    ∧ (processImageRun env s v p cn).createNoteCalls
        = (processImageRun env s v p cn').createNoteCalls
    ∧ (processImageRun env s v p cn).finalPath = (processImageRun env s v p cn').finalPath := by
  unfold processImageRun
  dsimp only
  split
  · exact ⟨rfl, rfl, rfl, rfl, rfl, rfl, rfl, rfl, rfl⟩
  · split
    · exact ⟨rfl, rfl, rfl, rfl, rfl, rfl, rfl, rfl, rfl⟩
    · split
      · split
        · exact ⟨rfl, rfl, rfl, rfl, rfl, rfl, rfl, rfl, rfl⟩
        · exact runFromMove_strip_no _ _ _ _ _ _
      · exact runFromMove_strip_no _ _ _ _ _ _

theorem ensureFolderExists_congr (e1 e2 : Env) (v : Vault) (fp : String)
    (h2 : e1.createFolderFails = e2.createFolderFails)
    (h7 : e1.ioErrorMsg = e2.ioErrorMsg) :
    ensureFolderExists e1 v fp = ensureFolderExists e2 v fp := by
  unfold ensureFolderExists
  rw [h2, h7]

theorem handleFileMove_congr (e1 e2 : Env) (v : Vault) (f t : String)
    (h3 : e1.renameFails = e2.renameFails) :
    handleFileMove e1 v f t = handleFileMove e2 v f t := by
  unfold handleFileMove
  rw [h3]

theorem markAsProcessed_congr (e1 e2 : Env) (h pr : List String) (fp : String)
    (h6 : e1.saveFails = e2.saveFails) :
    markAsProcessed e1 h pr fp = markAsProcessed e2 h pr fp := by
  unfold markAsProcessed
  rw [h6]

theorem runFromMove_congr (e1 e2 : Env) (s : PluginSettings) (mv : MoveRes)
    (tr : List Ev) (no : List NotTag)
    (h4 : e1.transcribe = e2.transcribe)
    (h5 : e1.createNoteResult = e2.createNoteResult)
    (h6 : e1.saveFails = e2.saveFails) :
    runFromMove e1 s mv tr no = runFromMove e2 s mv tr no := by
  obtain ⟨fp, mvv, mevs, mnot⟩ := mv
  unfold runFromMove
  dsimp only
  cases fp with
  | none => rfl
  | some p =>
    dsimp only
    rw [h4, h5, markAsProcessed_congr e1 e2 s.processedImagePaths s.processedImagePaths p h6]

theorem processImageRun_env_strip (e1 e2 : Env) (s : PluginSettings) (v : Vault)
    (p : String) (cn cn' : List NotTag)
    (h1 : e1.convertFails = e2.convertFails)
    (h2 : e1.createFolderFails = e2.createFolderFails)
    (h3 : e1.renameFails = e2.renameFails)
    (h4 : e1.transcribe = e2.transcribe)
    (h5 : e1.createNoteResult = e2.createNoteResult)
    (h6 : e1.saveFails = e2.saveFails)
    (h7 : e1.ioErrorMsg = e2.ioErrorMsg) :
    (processImageRun e1 s v p cn).status = (processImageRun e2 s v p cn').status
    ∧ (processImageRun e1 s v p cn).error = (processImageRun e2 s v p cn').error
    ∧ (processImageRun e1 s v p cn).vault = (processImageRun e2 s v p cn').vault
    ∧ (processImageRun e1 s v p cn).history = (processImageRun e2 s v p cn').history
    ∧ (processImageRun e1 s v p cn).persisted = (processImageRun e2 s v p cn').persisted
    ∧ (processImageRun e1 s v p cn).trace = (processImageRun e2 s v p cn').trace
    ∧ (processImageRun e1 s v p cn).transcribeCalls
        = (processImageRun e2 s v p cn').transcribeCalls
    ∧ (processImageRun e1 s v p cn).createNoteCalls
        = (processImageRun e2 s v p cn').createNoteCalls
    ∧ (processImageRun e1 s v p cn).finalPath = (processImageRun e2 s v p cn').finalPath := by
  unfold processImageRun
  dsimp only
  rw [ensureFolderExists_congr e1 e2 v (determineDestinationPaths s p).imageDestination h2 h7]
  split
  · exact ⟨rfl, rfl, rfl, rfl, rfl, rfl, rfl, rfl, rfl⟩
  · rename_i v1 heq1
    rw [ensureFolderExists_congr e1 e2 v1 (determineDestinationPaths s p).noteDestination h2 h7]
    split
    · exact ⟨rfl, rfl, rfl, rfl, rfl, rfl, rfl, rfl, rfl⟩
    · rw [h1]
      split
      · split
        · exact ⟨rfl, rfl, rfl, rfl, rfl, rfl, rfl, rfl, rfl⟩
        · rw [handleFileMove_congr e1 e2 _ _ _ h3,
            runFromMove_congr e1 e2 s _ _ _ h4 h5 h6]
          exact runFromMove_strip_no _ _ _ _ _ _
      · rw [handleFileMove_congr e1 e2 _ _ _ h3,
          runFromMove_congr e1 e2 s _ _ _ h4 h5 h6]
        exact runFromMove_strip_no _ _ _ _ _ _

theorem ensureFolderExists_ok_files (env : Env) (v : Vault) (fp : String)
    (h : env.createFolderFails = false) :
    ∃ v', ensureFolderExists env v fp = .ok v' ∧ v'.files = v.files := by
  unfold ensureFolderExists
  split
  · exact ⟨v, rfl, rfl⟩
  · split
    · exact ⟨v, rfl, rfl⟩
    · rw [if_neg (by simp [h])]
      exact ⟨_, rfl, rfl⟩

/-- Claim C2: whenever a run reaches the idempotency check and finds the
final path in the processed history (`histFound` in its trace), the job is
marked done with zero transcription-provider calls and zero
note-materializer calls. -/
theorem idempotent_skip (env : Env) (s : PluginSettings) (v : Vault) (p : String) :
    Ev.histFound ∈ (processImageFile env s v p).trace →
    (processImageFile env s v p).status = .done
    ∧ (processImageFile env s v p).transcribeCalls = 0
    ∧ (processImageFile env s v p).createNoteCalls = 0 := by
  unfold processImageFile processImageRun
  dsimp only
  split
  · intro h; simp at h
  · split
    · intro h; simp at h
    · split
      · split
        · intro h; simp at h
        · exact runFromMove_histFound _ _ _ _ _ (by decide)
            (not_mem_move_evs _ _ _ _ _ (by decide))
      · exact runFromMove_histFound _ _ _ _ _ (by decide)
          (not_mem_move_evs _ _ _ _ _ (by decide))

/-- Witness for C2: a run whose final path is pre-seeded in the history
reaches done without collaborator calls. -/
theorem idempotent_skip_witness :
    Ev.histFound ∈ (processImageFile envOk sProcessed vaultJpg "Notes/a.jpg").trace
    ∧ (processImageFile envOk sProcessed vaultJpg "Notes/a.jpg").status = .done
    ∧ (processImageFile envOk sProcessed vaultJpg "Notes/a.jpg").transcribeCalls = 0
    ∧ (processImageFile envOk sProcessed vaultJpg "Notes/a.jpg").createNoteCalls = 0 :=
  ⟨by decide, idempotent_skip envOk sProcessed vaultJpg "Notes/a.jpg" (by decide)⟩

/-- Claim C3 (amended): the final path is appended to the history only
after note creation succeeded (`appendEv` in a trace implies `noteOk`, and
every trace is ordered by `codeOrder`, where `noteOk` precedes
`appendEv`); a job reaches done only after either finding the path in the
history or appending it, and its final path is then in the in-memory
history.  The durable persist is attempted after the append, but its
failure is swallowed (see the counterexample), so done does not guarantee
a successful persist. -/
theorem history_commit_gating (env : Env) (s : PluginSettings) (v : Vault) (p : String) :
    (Ev.appendEv ∈ (processImageFile env s v p).trace →
      Ev.noteOk ∈ (processImageFile env s v p).trace)
    ∧ List.Sublist (processImageFile env s v p).trace codeOrder
    ∧ ((processImageFile env s v p).status = .done →
        (Ev.histFound ∈ (processImageFile env s v p).trace
          ∨ Ev.appendEv ∈ (processImageFile env s v p).trace)
        ∧ ∃ fp, (processImageFile env s v p).finalPath = some fp
            ∧ fp ∈ (processImageFile env s v p).history) :=
  ⟨processImageFile_append_imp_noteOk env s v p,
   processImageFile_trace_sublist env s v p,
   processImageFile_done_commit env s v p⟩

/-- Witness for C3 (amended): a fully successful run appends after the
note and reaches done with a committed final path. -/
theorem history_commit_gating_witness :
    Ev.noteOk ∈ (processImageFile envOk DEFAULT_SETTINGS vaultJpg "Notes/a.jpg").trace
    ∧ (Ev.histFound ∈ (processImageFile envOk DEFAULT_SETTINGS vaultJpg "Notes/a.jpg").trace
        ∨ Ev.appendEv ∈ (processImageFile envOk DEFAULT_SETTINGS vaultJpg "Notes/a.jpg").trace) :=
  ⟨(history_commit_gating envOk DEFAULT_SETTINGS vaultJpg "Notes/a.jpg").1 (by decide),
   ((history_commit_gating envOk DEFAULT_SETTINGS vaultJpg "Notes/a.jpg").2.2 (by decide)).1⟩

/-- Counterexample for C3 as stated: when the settings persistence throws,
`markAsProcessed` swallows the failure, so the job is marked done although
the durable persist of the history commit did not complete (the persisted
history is still empty). -/
theorem done_despite_persist_failure :
    (processImageFile envSaveFail DEFAULT_SETTINGS vaultJpg "Notes/a.jpg").status = .done
    ∧ Ev.appendEv ∈ (processImageFile envSaveFail DEFAULT_SETTINGS vaultJpg "Notes/a.jpg").trace
    ∧ Ev.persistOk ∉ (processImageFile envSaveFail DEFAULT_SETTINGS vaultJpg "Notes/a.jpg").trace
    ∧ (processImageFile envSaveFail DEFAULT_SETTINGS vaultJpg "Notes/a.jpg").persisted = [] := by
  decide

/-- Claim C4 (amended): the pipeline runs its stages in the fixed order of
`codeOrder` — destination resolution and folder provisioning first, then
format normalization, size reduction, collision check and move,
idempotency check, transcription, note materialization, history commit —
every run ends in done or error, and on a terminal failure the remaining
stages are skipped (an error run never reaches the history commit). -/
theorem pipeline_stage_order (env : Env) (s : PluginSettings) (v : Vault) (p : String) :
    List.Sublist (processImageFile env s v p).trace codeOrder
    ∧ ((processImageFile env s v p).status = .done
        ∨ (processImageFile env s v p).status = .error)
    ∧ ((processImageFile env s v p).status = .error →
        Ev.appendEv ∉ (processImageFile env s v p).trace) :=
  ⟨processImageFile_trace_sublist env s v p,
   processImageFile_terminal env s v p,
   processImageFile_error_no_append env s v p⟩

/-- Witness for C4 (amended): a run with a failing transcription provider
keeps the stage order and skips the history commit. -/
theorem pipeline_stage_order_witness :
    List.Sublist (processImageFile envTransFail DEFAULT_SETTINGS vaultJpg "Notes/a.jpg").trace
      codeOrder
    ∧ Ev.appendEv ∉ (processImageFile envTransFail DEFAULT_SETTINGS vaultJpg "Notes/a.jpg").trace :=
  ⟨(pipeline_stage_order envTransFail DEFAULT_SETTINGS vaultJpg "Notes/a.jpg").1,
   (pipeline_stage_order envTransFail DEFAULT_SETTINGS vaultJpg "Notes/a.jpg").2.2 (by decide)⟩

/-- Counterexample for C4 as stated: a successful HEIC run provisions the
destination folders before invoking format normalization, so its trace
both contains the conversion call and folder provisioning yet is not
ordered by the specification's claimed stage order (`claimedOrder`, which
puts conversion and compression before resolution and provisioning). -/
theorem stage_order_counterexample :
    Ev.convertCall ∈ (processImageFile envOk DEFAULT_SETTINGS vaultHeic "Notes/a.heic").trace
    ∧ Ev.ensureImg ∈ (processImageFile envOk DEFAULT_SETTINGS vaultHeic "Notes/a.heic").trace
    ∧ ¬ List.Sublist (processImageFile envOk DEFAULT_SETTINGS vaultHeic "Notes/a.heic").trace
        claimedOrder := by
  decide

/-- Claim C6 (amended): when a distinct file occupies the computed
destination path of a (non-HEIC) job, the job terminates in error — but
with the generic reason `File move/folder handling failed` rather than a
collision-specific one (that appears only in the user notification) — no
move is performed, no file is overwritten (the vault's files are exactly
as before the run), and the collision is notified. -/
theorem collision_terminal_no_overwrite (env : Env) (s : PluginSettings)
    (v : Vault) (p : String)
    (h1 : isHeic p = false)
    (h2 : env.createFolderFails = false)
    (h3 : normalizePath ((determineDestinationPaths s p).imageDestination ++ "/" ++ fileName p)
        ≠ p)
    (h4 : v.files.contains
        (normalizePath ((determineDestinationPaths s p).imageDestination ++ "/" ++ fileName p))
        = true) :
    (processImageFile env s v p).status = .error
    ∧ (processImageFile env s v p).error = some "File move/folder handling failed"
    ∧ Ev.moveDone ∉ (processImageFile env s v p).trace
    ∧ (processImageFile env s v p).vault.files = v.files
    ∧ NotTag.errDuplicateExists ∈ (processImageFile env s v p).notices := by
  unfold processImageFile processImageRun
  dsimp only
  obtain ⟨v1, hv1, hf1⟩ :=
    ensureFolderExists_ok_files env v (determineDestinationPaths s p).imageDestination h2
  rw [hv1]
  dsimp only
  obtain ⟨v2, hv2, hf2⟩ :=
    ensureFolderExists_ok_files env v1 (determineDestinationPaths s p).noteDestination h2
  rw [hv2]
  dsimp only
  rw [if_neg (by simp [h1])]
  have hga : getAbstractFileByPath v2
      (normalizePath ((determineDestinationPaths s p).imageDestination ++ "/" ++ fileName p))
      = some VEntry.tfile := by
    unfold getAbstractFileByPath
    rw [if_pos (by rw [hf2, hf1]; exact h4)]
  have hmv : handleFileMove env v2 p (determineDestinationPaths s p).imageDestination
      = ⟨none, v2, [], [NotTag.errDuplicateExists]⟩ := by
    unfold handleFileMove
    dsimp only
    rw [if_neg (by simp [h3]), hga]
  rw [hmv]
  unfold runFromMove
  dsimp only
  refine ⟨rfl, rfl, by simp, ?_, by simp⟩
  rw [hf2, hf1]

/-- Witness for C6 (amended): a concrete collision in `Notes/Images`. -/
theorem collision_terminal_no_overwrite_witness :
    (processImageFile envOk DEFAULT_SETTINGS vaultCollide "Notes/a.jpg").status = .error
    ∧ (processImageFile envOk DEFAULT_SETTINGS vaultCollide "Notes/a.jpg").error
        = some "File move/folder handling failed"
    ∧ Ev.moveDone ∉ (processImageFile envOk DEFAULT_SETTINGS vaultCollide "Notes/a.jpg").trace
    ∧ (processImageFile envOk DEFAULT_SETTINGS vaultCollide "Notes/a.jpg").vault.files
        = vaultCollide.files
    ∧ NotTag.errDuplicateExists
        ∈ (processImageFile envOk DEFAULT_SETTINGS vaultCollide "Notes/a.jpg").notices :=
  collision_terminal_no_overwrite envOk DEFAULT_SETTINGS vaultCollide "Notes/a.jpg"
    (by decide) (by decide) (by decide) (by decide)

/-- Counterexample for C6 as stated: on a collision the job's recorded
error reason is the generic `File move/folder handling failed`, not the
collision-specific `duplicate name in target folder` the claim names. -/
theorem collision_reason_counterexample :
    (processImageFile envOk DEFAULT_SETTINGS vaultCollide "Notes/a.jpg").status = .error
    ∧ NotTag.errDuplicateExists
        ∈ (processImageFile envOk DEFAULT_SETTINGS vaultCollide "Notes/a.jpg").notices
    ∧ (processImageFile envOk DEFAULT_SETTINGS vaultCollide "Notes/a.jpg").error
        ≠ some "duplicate name in target folder" := by
  decide

/-- Claim C7: compression failure is non-terminal — every observable of a
run except the user notices (status, error reason, vault, in-memory and
persisted history, event trace, collaborator call counts, final path) is
the same whatever the compression collaborator does (succeed, return null,
or throw); in particular a job that reaches done with working compression
still reaches done when compression fails. -/
theorem compression_failure_non_terminal (env : Env) (c c' : CompressOutcome)
    (s : PluginSettings) (v : Vault) (p : String) :
    (processImageFile { env with compress := c } s v p).status
      = (processImageFile { env with compress := c' } s v p).status
    ∧ (processImageFile { env with compress := c } s v p).error
      = (processImageFile { env with compress := c' } s v p).error
    ∧ (processImageFile { env with compress := c } s v p).vault
      = (processImageFile { env with compress := c' } s v p).vault
    ∧ (processImageFile { env with compress := c } s v p).history
      = (processImageFile { env with compress := c' } s v p).history
    ∧ (processImageFile { env with compress := c } s v p).persisted
      = (processImageFile { env with compress := c' } s v p).persisted
    ∧ (processImageFile { env with compress := c } s v p).trace
      = (processImageFile { env with compress := c' } s v p).trace
    ∧ (processImageFile { env with compress := c } s v p).transcribeCalls
      = (processImageFile { env with compress := c' } s v p).transcribeCalls
    ∧ (processImageFile { env with compress := c } s v p).createNoteCalls
      = (processImageFile { env with compress := c' } s v p).createNoteCalls
    ∧ (processImageFile { env with compress := c } s v p).finalPath
      = (processImageFile { env with compress := c' } s v p).finalPath := by
  unfold processImageFile
  exact processImageRun_env_strip _ _ s v p _ _ rfl rfl rfl rfl rfl rfl rfl

/-- Counterexample for C9 as stated: for a file whose parent folder name
equals the configured image subfolder name (`Notes/Images/a.jpg` with
subfolder `Images`), a move is performed (into a nested
`Notes/Images/Images`) and the resolved note destination is the image
subfolder itself, not the folder one level above it. -/
theorem already_in_subfolder_counterexample :
    fileName (getParentFolderPath "Notes/Images/a.jpg") = DEFAULT_SETTINGS.imageFolderName
    ∧ Ev.moveDone
        ∈ (processImageFile envOk DEFAULT_SETTINGS vaultInImages "Notes/Images/a.jpg").trace
    ∧ (processImageFile envOk DEFAULT_SETTINGS vaultInImages "Notes/Images/a.jpg").finalPath
        = some "Notes/Images/Images/a.jpg"
    ∧ (determineDestinationPaths DEFAULT_SETTINGS "Notes/Images/a.jpg").noteDestination
        ≠ "Notes" := by
  decide

/-- Claim C9 (amended): destination resolution does not detect the
already-in-destination case — for a file already inside the configured
image subfolder the computed image destination nests a second subfolder
inside it, the note destination stays the current parent (inside the image
subfolder), and the pipeline moves the file into the nested subfolder and
completes there. -/
theorem already_in_subfolder_nested :
    (determineDestinationPaths DEFAULT_SETTINGS "Notes/Images/a.jpg").imageDestination
      = "Notes/Images/Images"
    ∧ (determineDestinationPaths DEFAULT_SETTINGS "Notes/Images/a.jpg").noteDestination
      = "Notes/Images"
    ∧ (processImageFile envOk DEFAULT_SETTINGS vaultInImages "Notes/Images/a.jpg").finalPath
      = some "Notes/Images/Images/a.jpg"
    ∧ (processImageFile envOk DEFAULT_SETTINGS vaultInImages "Notes/Images/a.jpg").status
      = .done := by
  decide

/-- Claim C8: with the concurrency limit set to N, folding any sequence of
enqueue operations (the reachable states when every collaborator call
blocks indefinitely, so no job ever completes) never yields more than N
jobs in `processing` status, and the job being processed is always the
head of the admission queue (jobs are started in FIFO order of
admission). -/
theorem concurrency_bound_fifo (N : Nat) (ps : List String) (hN : 1 ≤ N) :
    ProcessingQueueMC.countProcessing
      (List.foldl ProcessingQueueMC.addToQueue (ProcessingQueueMC.initState N) ps).queue ≤ N
    ∧ ∀ j ∈ (List.foldl ProcessingQueueMC.addToQueue (ProcessingQueueMC.initState N) ps).queue,
        j.status = .processing →
        (List.foldl ProcessingQueueMC.addToQueue (ProcessingQueueMC.initState N) ps).queue.head?
          = some j := by
  have hInv : MCInv (List.foldl ProcessingQueueMC.addToQueue (ProcessingQueueMC.initState N) ps) :=
    foldl_addToQueueMC_inv ps (ProcessingQueueMC.initState N)
      ⟨by simp [ProcessingQueueMC.initState, ProcessingQueueMC.countProcessing],
       by simp [ProcessingQueueMC.initState],
       by simp [ProcessingQueueMC.initState]⟩
  refine ⟨?_, hInv.2.2⟩
  rw [hInv.1]
  split <;> omega

/-- Witness for C8: three distinct admissions with the default limit 2. -/
theorem concurrency_bound_fifo_witness :
    ProcessingQueueMC.countProcessing
      (List.foldl ProcessingQueueMC.addToQueue (ProcessingQueueMC.initState 2)
        ["a.jpg", "b.jpg", "c.jpg"]).queue ≤ 2 := by
  exact (concurrency_bound_fifo 2 ["a.jpg", "b.jpg", "c.jpg"] (by decide)).1

/-- Claim C10: the file-creation handler only ever hands image files
(extension jpg, jpeg, png or heic, case-insensitively) to the queue; for
any other created file, and for any folder, it returns without calling
`addToQueue` and leaves the queue untouched. -/
theorem handleFileCreate_image_filter (st : PluginState) (file : AbstractFile) :
    ((handleFileCreate st file).2 = true → isImageFile file = true)
    ∧ (isImageFile file = false →
        (handleFileCreate st file).2 = false
        ∧ (handleFileCreate st file).1.queue = st.queue) := by
  cases file with
  | folder p => simp [handleFileCreate, isImageFile]
  | file p =>
    unfold handleFileCreate
    constructor
    · intro henq
      by_contra himg
      simp only [Bool.not_eq_true] at himg
      simp [himg] at henq
      split at henq <;> simp_all
    · intro himg
      simp [himg]
      split <;> simp_all

/-- Witness for C10: a markdown file is not enqueued. -/
theorem handleFileCreate_image_filter_witness :
    (handleFileCreate stEx (AbstractFile.file "Notes/a.md")).2 = false
    ∧ (handleFileCreate stEx (AbstractFile.file "Notes/a.md")).1.queue = stEx.queue := by
  exact (handleFileCreate_image_filter stEx (AbstractFile.file "Notes/a.md")).2 (by decide)

end ImagesToNotes
